import Mathlib

/-
  Verification development for the ray tracer in raytracer.py.

  The Python floats are modelled by real numbers; math.sqrt is Real.sqrt.
  Python raises ZeroDivisionError on float division by zero; where a claim
  is about that behaviour the division is modelled by an Except-valued
  function (Vec3.normE).  Elsewhere division is the totalized real
  division (division by zero yields the junk value 0); every such division
  in the traced code corresponds to a degenerate geometric configuration
  on which Python would abort the pixel instead.
-/

/-- Vec3 from raytracer.py lines 6-61: three components, used both as a
spatial vector and as an RGB color. -/
@[ext]
structure Vec3 where
  x : ℝ
  y : ℝ
  z : ℝ

/-- Vec3.__add__ (line 12): component-wise sum. -/
def Vec3.add (a b : Vec3) : Vec3 :=
  ⟨a.x + b.x, a.y + b.y, a.z + b.z⟩

/-- Vec3.__sub__ (line 15): component-wise difference. -/
def Vec3.sub (a b : Vec3) : Vec3 :=
  ⟨a.x - b.x, a.y - b.y, a.z - b.z⟩

/-- Vec3.__mul__ / __rmul__ (lines 18-22): scalar multiple. -/
def Vec3.smul (a : Vec3) (s : ℝ) : Vec3 :=
  ⟨a.x * s, a.y * s, a.z * s⟩

/-- Vec3.__truediv__ (line 24): component-wise division by a scalar. -/
noncomputable def Vec3.div (a : Vec3) (s : ℝ) : Vec3 :=
  ⟨a.x / s, a.y / s, a.z / s⟩

/-- Vec3.mag (line 27): Euclidean magnitude. -/
noncomputable def Vec3.mag (a : Vec3) : ℝ :=
  Real.sqrt (a.x ^ 2 + a.y ^ 2 + a.z ^ 2)

/-- Vec3.norm (line 30), totalized: each component divided by the
magnitude.  When the magnitude is zero Python raises ZeroDivisionError
instead; that behaviour is modelled by Vec3.normE below. -/
noncomputable def Vec3.norm (v : Vec3) : Vec3 :=
  let length := v.mag
  ⟨v.x / length, v.y / length, v.z / length⟩

/-- The errors the modelled code can raise.  zeroDivisionError is Python's
ZeroDivisionError, raised by float division by zero.  degenerateVectorError
is the error class named by the specification; no such class exists in
raytracer.py, the constructor is present only so that the specification's
sentence can be stated and compared with the code. -/
inductive PyError where
  | zeroDivisionError : PyError
  | degenerateVectorError : PyError
deriving DecidableEq

/-- Vec3.norm (line 30) with Python's error behaviour made explicit:
x / 0.0 raises ZeroDivisionError, so norm on a zero-magnitude vector
raises ZeroDivisionError; otherwise it returns the value of Vec3.norm. -/
noncomputable def Vec3.normE (v : Vec3) : Except PyError Vec3 :=
  let length := v.mag
  if length = 0 then Except.error PyError.zeroDivisionError
  else Except.ok ⟨v.x / length, v.y / length, v.z / length⟩

/-- Vec3.dot (line 38): standard inner product. -/
def Vec3.dot (a b : Vec3) : ℝ :=
  a.x * b.x + a.y * b.y + a.z * b.z

/-- Vec3.clamp (line 41): clip each component into [low, high]. -/
def Vec3.clamp (a : Vec3) (low high : ℝ) : Vec3 :=
  ⟨min (max a.x low) high, min (max a.y low) high, min (max a.z low) high⟩

/-- Vec3.black (line 56). -/
def Vec3.black : Vec3 := ⟨0, 0, 0⟩

/-- Vec3.white (line 52). -/
def Vec3.white : Vec3 := ⟨1, 1, 1⟩

/-- Ray (line 63): origin and stored direction.  Construction goes through
Ray.make, which normalizes, mirroring Ray.__init__. -/
structure Ray where
  origin : Vec3
  dir : Vec3

/-- Ray.__init__ (lines 64-66): the direction is normalized before being
stored. -/
noncomputable def Ray.make (origin dir : Vec3) : Ray :=
  ⟨origin, dir.norm⟩

/-- Material (lines 68-78). -/
structure Material where
  color : Vec3
  ambient : ℝ
  diffuse : ℝ
  specular : ℝ
  reflective : ℝ

/-- Light (lines 80-83). -/
structure Light where
  pos : Vec3
  color : Vec3

/-- Sphere (lines 85-89). -/
structure Sphere where
  center : Vec3
  radius : ℝ
  material : Material

/-- Sphere.intersects (lines 91-104): projection method.  Returns the
distance to the near intersection point, or none on a miss. -/
noncomputable def Sphere.intersects (s : Sphere) (ray : Ray) : Option ℝ :=
  let to_sphere := Vec3.sub s.center ray.origin
  let t := to_sphere.dot ray.dir
  if t < 0 then none
  else
    let perp_point := Vec3.add ray.origin (Vec3.smul ray.dir t)
    let shortest_line := Vec3.sub perp_point s.center
    let y := shortest_line.mag
    if y ≤ s.radius then some (t - Real.sqrt (s.radius ^ 2 - y ^ 2))
    else none

/-- Sphere.get_normal (lines 106-107). -/
noncomputable def Sphere.get_normal (s : Sphere) (hit_pos : Vec3) : Vec3 :=
  (Vec3.sub hit_pos s.center).norm

/-- Scene (lines 109-142), restricted to the data the trace engine reads:
the camera position and the ordered surface and light lists.  The
randomized population of those lists is scene setup, outside the core. -/
structure Scene where
  cam : Vec3
  shapes : List Sphere
  lights : List Light

/-- One step of raytrace's nearest-hit loop (lines 171-179): keep the
running best, replace it when the shape intersects and either no best
exists yet or the new distance is strictly smaller. -/
noncomputable def hitStep (ray : Ray) (best : Option (Sphere × ℝ)) (shape : Sphere) :
    Option (Sphere × ℝ) :=
  match shape.intersects ray with
  | none => best
  | some dist =>
    match best with
    | none => some (shape, dist)
    | some (_, min_dist) => if dist < min_dist then some (shape, dist) else best

/-- raytrace's nearest-hit search (lines 168-179) over the whole shape
list. -/
noncomputable def closestHit (shapes : List Sphere) (ray : Ray) : Option (Sphere × ℝ) :=
  shapes.foldl (hitStep ray) none

/-- color_at (lines 195-217): ambient start, then for each light add the
diffuse and the specular contribution. -/
noncomputable def color_at (scene : Scene) (ray : Ray) (shape_hit : Sphere)
    (hit_pos hit_normal : Vec3) : Vec3 :=
  scene.lights.foldl
    (fun color light =>
      let to_light := (Vec3.sub light.pos hit_pos).norm
      let to_cam := (Vec3.sub scene.cam hit_pos).norm
      let diffuse :=
        Vec3.smul (Vec3.smul shape_hit.material.color shape_hit.material.diffuse)
          (max (hit_normal.dot to_light) 0)
      let halfway := (Vec3.add to_light to_cam).norm
      let specular :=
        Vec3.smul (Vec3.smul light.color shape_hit.material.specular)
          ((max (halfway.dot hit_normal) 0) ^ 30)
      Vec3.add (Vec3.add color diffuse) specular)
    (Vec3.smul shape_hit.material.color shape_hit.material.ambient)

/-- The bounce direction of line 190: dir - 2*(dir.dot normal)*normal. -/
def reflect (dir n : Vec3) : Vec3 :=
  Vec3.sub dir (Vec3.smul n (2 * dir.dot n))

/-- raytrace (lines 164-193) with the remaining bounce budget
max_bounces - depth as structural fuel: fuel 0 is the terminal state
depth == max_bounces (return black); otherwise find the nearest hit
(black on a miss), shade it, and add the trace of the bounce ray with one
unit of budget fewer.  raytraceF below is the step-indexed model of the
Python recursion itself and is proved to agree with this one. -/
noncomputable def raytraceGo (scene : Scene) : ℕ → Ray → Vec3
  | 0, _ => Vec3.black
  | fuel + 1, ray =>
    match closestHit scene.shapes ray with
    | none => Vec3.black
    | some (shape_hit, dist) =>
      let hit_pos := Vec3.add ray.origin (Vec3.smul ray.dir dist)
      let hit_normal := shape_hit.get_normal hit_pos
      let color := color_at scene ray shape_hit hit_pos hit_normal
      let bounce_ray :=
        Ray.make (Vec3.add hit_pos (Vec3.smul hit_normal 0.001))
          (reflect ray.dir hit_normal)
      Vec3.add color (raytraceGo scene fuel bounce_ray)

/-- raytrace (lines 164-193) in the source's signature.  From the starting
depth 0 the Python recursion only reaches states with depth ≤ max_bounces,
where the remaining budget max_bounces - depth determines the result. -/
noncomputable def raytrace (ray : Ray) (scene : Scene) (max_bounces depth : ℕ) : Vec3 :=
  raytraceGo scene (max_bounces - depth) ray

/-- Step-indexed model of the Python raytrace recursion (lines 164-193):
steps bounds the number of nested calls still allowed, none means the
budget of nested calls was exhausted before the recursion finished.  The
body is the literal source: terminal check depth == max_bounces, nearest
hit, shading, bounce ray with depth + 1. -/
noncomputable def raytraceF (scene : Scene) : ℕ → Ray → ℕ → ℕ → Option Vec3
  | 0, _, _, _ => none
  | steps + 1, ray, max_bounces, depth =>
    if depth = max_bounces then some Vec3.black
    else
      match closestHit scene.shapes ray with
      | none => some Vec3.black
      | some (shape_hit, dist) =>
        let hit_pos := Vec3.add ray.origin (Vec3.smul ray.dir dist)
        let hit_normal := shape_hit.get_normal hit_pos
        let color := color_at scene ray shape_hit hit_pos hit_normal
        let bounce_ray :=
          Ray.make (Vec3.add hit_pos (Vec3.smul hit_normal 0.001))
            (reflect ray.dir hit_normal)
        Option.map (fun rest => Vec3.add color rest)
          (raytraceF scene steps bounce_ray max_bounces (depth + 1))

/-- The primary ray of render_scene (lines 157-161): from the camera
toward the target point (x, y, 0) on the image plane. -/
noncomputable def primaryRay (scene : Scene) (x y : ℕ) : Ray :=
  Ray.make scene.cam (Vec3.sub (Vec3.mk (x : ℝ) (y : ℝ) 0) scene.cam)

/-- Sum of a list of vectors, used by the spec-side shading formula. -/
def vsum (vs : List Vec3) : Vec3 :=
  vs.foldr Vec3.add Vec3.black

/-- Spec-side shading formula, written from the specification's words for
comparison with color_at: ambient added once per surface, plus the sum
over lights of the diffuse term material.color * material.diffuse *
max(0, normal.dot to_light) and the specular term light.color *
material.specular * max(0, halfway.dot normal) ^ 30, with to_light the
unit vector from hit point to light, to_cam the unit vector from hit
point to the scene's camera, and halfway the normalized sum of the two. -/
noncomputable def shadeSpec (scene : Scene) (sh : Sphere) (hit_pos hit_normal : Vec3) : Vec3 :=
  Vec3.add (Vec3.smul sh.material.color sh.material.ambient)
    (vsum (scene.lights.map (fun light =>
      let to_light := (Vec3.sub light.pos hit_pos).norm
      let to_cam := (Vec3.sub scene.cam hit_pos).norm
      let halfway := (Vec3.add to_light to_cam).norm
      Vec3.add
        (Vec3.smul (Vec3.smul sh.material.color sh.material.diffuse)
          (max 0 (hit_normal.dot to_light)))
        (Vec3.smul (Vec3.smul light.color sh.material.specular)
          ((max 0 (halfway.dot hit_normal)) ^ 30)))))

/-- Component-wise order on colors: every channel of a is at most the
corresponding channel of b. -/
def vecLE (a b : Vec3) : Prop :=
  a.x ≤ b.x ∧ a.y ≤ b.y ∧ a.z ≤ b.z

/-- All three components nonnegative. -/
def vecNonneg (v : Vec3) : Prop :=
  0 ≤ v.x ∧ 0 ≤ v.y ∧ 0 ≤ v.z

/-- The nonnegativity assumptions of the accumulation claims: every
material color component and illumination coefficient, and every light
color component, is nonnegative. -/
def sceneNonneg (scene : Scene) : Prop :=
  (∀ sh ∈ scene.shapes, vecNonneg sh.material.color ∧ 0 ≤ sh.material.ambient ∧
    0 ≤ sh.material.diffuse ∧ 0 ≤ sh.material.specular) ∧
  (∀ l ∈ scene.lights, vecNonneg l.color)

/-
  Basic lemmas about the vector algebra.
-/

theorem Vec3.mag_nonneg (v : Vec3) : 0 ≤ v.mag :=
  Real.sqrt_nonneg _

theorem Vec3.sq_mag (v : Vec3) : v.mag ^ 2 = v.x ^ 2 + v.y ^ 2 + v.z ^ 2 :=
  Real.sq_sqrt (by positivity)

theorem Vec3.mag_norm (v : Vec3) (h : v.mag ≠ 0) : v.norm.mag = 1 := by
  have hpos : 0 < v.mag := lt_of_le_of_ne v.mag_nonneg (Ne.symm h)
  have hsq : v.mag ^ 2 = v.x ^ 2 + v.y ^ 2 + v.z ^ 2 := v.sq_mag
  have key : (v.x / v.mag) ^ 2 + (v.y / v.mag) ^ 2 + (v.z / v.mag) ^ 2 = 1 := by
    field_simp
    linarith [hsq]
  have hdef : v.norm.mag
      = Real.sqrt ((v.x / v.mag) ^ 2 + (v.y / v.mag) ^ 2 + (v.z / v.mag) ^ 2) := rfl
  rw [hdef, key, Real.sqrt_one]

theorem Vec3.add_black (a : Vec3) : a.add Vec3.black = a := by
  ext <;> simp [Vec3.add, Vec3.black]

theorem Vec3.dot_self_eq (v : Vec3) : v.dot v = v.mag ^ 2 := by
  rw [v.sq_mag]; simp [Vec3.dot]; ring

/-
  The shading fold rewritten as ambient plus a sum over lights.
-/

theorem shade_foldl (cam : Vec3) (mat : Material) (hit_pos hit_normal : Vec3) :
    ∀ (ls : List Light) (acc : Vec3),
      ls.foldl
        (fun color light =>
          let to_light := (Vec3.sub light.pos hit_pos).norm
          let to_cam := (Vec3.sub cam hit_pos).norm
          let diffuse :=
            Vec3.smul (Vec3.smul mat.color mat.diffuse)
              (max (hit_normal.dot to_light) 0)
          let halfway := (Vec3.add to_light to_cam).norm
          let specular :=
            Vec3.smul (Vec3.smul light.color mat.specular)
              ((max (halfway.dot hit_normal) 0) ^ 30)
          Vec3.add (Vec3.add color diffuse) specular) acc
      = Vec3.add acc (vsum (ls.map (fun light =>
          let to_light := (Vec3.sub light.pos hit_pos).norm
          let to_cam := (Vec3.sub cam hit_pos).norm
          let halfway := (Vec3.add to_light to_cam).norm
          Vec3.add
            (Vec3.smul (Vec3.smul mat.color mat.diffuse)
              (max 0 (hit_normal.dot to_light)))
            (Vec3.smul (Vec3.smul light.color mat.specular)
              ((max 0 (halfway.dot hit_normal)) ^ 30))))) := by
  intro ls
  induction ls with
  | nil =>
    intro acc
    simp only [List.foldl_nil, List.map_nil, vsum, List.foldr_nil, Vec3.add_black]
  | cons l ls ih =>
    intro acc
    simp only [List.foldl_cons, List.map_cons, vsum, List.foldr_cons] at *
    rw [ih]
    ext <;> simp [Vec3.add, max_comm] <;> ring

/-- Claim C2: at every hit the local shaded color computed by color_at
equals material.color * material.ambient added exactly once per surface,
plus for each light the diffuse term material.color * material.diffuse *
max(0, normal.dot to_light) and the specular term light.color *
material.specular * max(0, halfway.dot normal) ^ 30, with to_light the
unit vector toward the light, to_cam the unit vector toward the scene's
single camera position, and halfway their normalized sum — exactly the
spec-side formula shadeSpec. -/
theorem color_at_eq_shadeSpec (scene : Scene) (ray : Ray) (sh : Sphere)
    (hit_pos hit_normal : Vec3) :
    color_at scene ray sh hit_pos hit_normal = shadeSpec scene sh hit_pos hit_normal :=
  shade_foldl scene.cam sh.material hit_pos hit_normal scene.lights
    (Vec3.smul sh.material.color sh.material.ambient)

/-- Claim C3: raytrace at depth == max_bounces returns black immediately,
and in particular with max_bounces = 0 and starting depth 0 it returns
black for every ray and every scene. -/
theorem raytrace_black_at_depth_limit (ray : Ray) (scene : Scene) (m : ℕ) :
    raytrace ray scene m m = Vec3.black ∧ raytrace ray scene 0 0 = Vec3.black := by
  constructor
  · unfold raytrace
    rw [Nat.sub_self]
    rfl
  · rfl

/-- Claim C7: for a unit direction and a unit normal, the bounce direction
dir - 2*(dir.dot normal)*normal satisfies reflected.dot normal =
-(dir.dot normal). -/
theorem reflect_dot_normal (dir n : Vec3) (hdir : dir.mag = 1) (hn : n.mag = 1) :
    (reflect dir n).dot n = -(dir.dot n) := by
  have hnn : n.x * n.x + n.y * n.y + n.z * n.z = 1 := by
    have h := Vec3.dot_self_eq n
    rw [hn] at h
    simpa [Vec3.dot] using h
  simp only [reflect, Vec3.sub, Vec3.smul, Vec3.dot]
  linear_combination (-2 * (dir.x * n.x + dir.y * n.y + dir.z * n.z)) * hnn

/-- Witness for C7 at dir = (0,0,1), n = (0,1,0). -/
theorem reflect_dot_normal_witness :
    ((Vec3.mk 0 0 1).mag = 1 ∧ (Vec3.mk 0 1 0).mag = 1) ∧
    (reflect (Vec3.mk 0 0 1) (Vec3.mk 0 1 0)).dot (Vec3.mk 0 1 0)
      = -((Vec3.mk 0 0 1).dot (Vec3.mk 0 1 0)) := by
  have h1 : (Vec3.mk 0 0 1).mag = 1 := by
    simp only [Vec3.mag]
    norm_num [Real.sqrt_one]
  have h2 : (Vec3.mk 0 1 0).mag = 1 := by
    simp only [Vec3.mag]
    norm_num [Real.sqrt_one]
  exact ⟨⟨h1, h2⟩, reflect_dot_normal _ _ h1 h2⟩

/-- Claim C9: the Ray constructor normalizes its input direction before
storing it, so every constructed ray carries a unit-magnitude dir; the
frame renderer's primary rays are built through that constructor. -/
theorem ray_make_unit_dir (o d : Vec3) (h : d.mag ≠ 0) :
    (Ray.make o d).dir = d.norm ∧ ((Ray.make o d).dir).mag = 1 ∧
    (∀ (scene : Scene) (x y : ℕ),
      primaryRay scene x y
        = Ray.make scene.cam (Vec3.sub (Vec3.mk (x : ℝ) (y : ℝ) 0) scene.cam)) :=
  ⟨rfl, Vec3.mag_norm d h, fun _ _ _ => rfl⟩

/-- Witness for C9 at origin (0,0,0) and direction (0,0,2). -/
theorem ray_make_unit_dir_witness :
    (Vec3.mk 0 0 2).mag ≠ 0 ∧ ((Ray.make (Vec3.mk 0 0 0) (Vec3.mk 0 0 2)).dir).mag = 1 := by
  have h2 : (Vec3.mk 0 0 2).mag = 2 := by
    simp only [Vec3.mag]
    norm_num
    rw [show (4 : ℝ) = 2 ^ 2 by norm_num, Real.sqrt_sq (by norm_num : (0:ℝ) ≤ 2)]
  have hne : (Vec3.mk 0 0 2).mag ≠ 0 := by rw [h2]; norm_num
  exact ⟨hne, (ray_make_unit_dir (Vec3.mk 0 0 0) (Vec3.mk 0 0 2) hne).2.1⟩

theorem mag_zero_vec : (Vec3.mk 0 0 0).mag = 0 := by
  simp only [Vec3.mag]
  norm_num [Real.sqrt_zero]

/-- Counterexample for C6 as stated: on the zero vector, norm fails with
Python's ZeroDivisionError (float division by zero), not with a
DegenerateVectorError — no class of that name exists in raytracer.py. -/
theorem normE_degenerate_error_counterexample :
    (Vec3.mk 0 0 0).normE = Except.error PyError.zeroDivisionError ∧
    (Vec3.mk 0 0 0).normE ≠ Except.error PyError.degenerateVectorError := by
  constructor
  · simp [Vec3.normE, mag_zero_vec]
  · simp [Vec3.normE, mag_zero_vec]

/-- Claim C6 amended: norm on a vector of magnitude exactly zero fails —
with ZeroDivisionError, the error Python's float division by zero raises,
rather than the spec's DegenerateVectorError — and on a vector of nonzero
magnitude it raises no error and returns the unit vector in the same
direction (magnitude 1, and scaling it back by the original magnitude
recovers the vector). -/
theorem normE_spec_amended (v : Vec3) :
    (v.mag = 0 → v.normE = Except.error PyError.zeroDivisionError) ∧
    (v.mag ≠ 0 → v.normE = Except.ok v.norm ∧ v.norm.mag = 1 ∧
      Vec3.smul v.norm v.mag = v) := by
  constructor
  · intro h
    simp [Vec3.normE, h]
  · intro h
    refine ⟨by simp [Vec3.normE, Vec3.norm, h], Vec3.mag_norm v h, ?_⟩
    ext <;> (simp only [Vec3.smul, Vec3.norm]; field_simp)

/-- Witness for C6 at the zero vector and at (0,0,2). -/
theorem normE_spec_amended_witness :
    ((Vec3.mk 0 0 0).mag = 0 ∧
      (Vec3.mk 0 0 0).normE = Except.error PyError.zeroDivisionError) ∧
    ((Vec3.mk 0 0 2).mag ≠ 0 ∧
      (Vec3.mk 0 0 2).normE = Except.ok (Vec3.mk 0 0 2).norm ∧
      ((Vec3.mk 0 0 2).norm).mag = 1) := by
  have h2 : (Vec3.mk 0 0 2).mag = 2 := by
    simp only [Vec3.mag]
    norm_num
    rw [show (4 : ℝ) = 2 ^ 2 by norm_num, Real.sqrt_sq (by norm_num : (0:ℝ) ≤ 2)]
  have hne : (Vec3.mk 0 0 2).mag ≠ 0 := by rw [h2]; norm_num
  have ha := (normE_spec_amended (Vec3.mk 0 0 0)).1 mag_zero_vec
  have hb := (normE_spec_amended (Vec3.mk 0 0 2)).2 hne
  exact ⟨⟨mag_zero_vec, ha⟩, ⟨hne, hb.1, hb.2.1⟩⟩

/-
  Invariants of the nearest-hit loop.
-/

theorem hitStep_all_none (ray : Ray) :
    ∀ (shapes : List Sphere), (∀ sh ∈ shapes, sh.intersects ray = none) →
      ∀ acc, shapes.foldl (hitStep ray) acc = acc := by
  intro shapes
  induction shapes with
  | nil => intro _ acc; rfl
  | cons s rest ih =>
    intro h acc
    have hs : s.intersects ray = none := h s (List.mem_cons_self s rest)
    simp only [List.foldl_cons]
    rw [show hitStep ray acc s = acc by simp [hitStep, hs]]
    exact ih (fun sh hm => h sh (List.mem_cons_of_mem _ hm)) acc

theorem foldl_hitStep_spec (ray : Ray) :
    ∀ (shapes : List Sphere) (acc : Option (Sphere × ℝ)) (s : Sphere) (d : ℝ),
      shapes.foldl (hitStep ray) acc = some (s, d) →
      (acc = some (s, d) ∧
        ∀ sh ∈ shapes, ∀ d2, sh.intersects ray = some d2 → d ≤ d2)
      ∨ (∃ i : ℕ, shapes.get? i = some s ∧
          s.intersects ray = some d ∧
          (∀ b bd, acc = some (b, bd) → d < bd) ∧
          (∀ sh ∈ shapes, ∀ d2, sh.intersects ray = some d2 → d ≤ d2) ∧
          (∀ j, j < i → ∀ sh2, shapes.get? j = some sh2 →
            ∀ d2, sh2.intersects ray = some d2 → d < d2)) := by
  intro shapes
  induction shapes with
  | nil =>
    intro acc s d h
    left
    exact ⟨h, by intro sh hm; simp at hm⟩
  | cons sh0 rest ih =>
    intro acc s d h
    simp only [List.foldl_cons] at h
    rcases hint0 : sh0.intersects ray with _ | dd
    · -- the head misses: the step keeps the accumulator
      have hstep : hitStep ray acc sh0 = acc := by simp [hitStep, hint0]
      rw [hstep] at h
      rcases ih acc s d h with ⟨hacc, hmin⟩ | ⟨i, hget, hintS, haccB, hmin, hstrict⟩
      · left
        refine ⟨hacc, ?_⟩
        intro sh hm d2 hd2
        rcases List.mem_cons.1 hm with rfl | hm'
        · rw [hint0] at hd2; cases hd2
        · exact hmin sh hm' d2 hd2
      · right
        refine ⟨i + 1, by simpa using hget, hintS, haccB, ?_, ?_⟩
        · intro sh hm d2 hd2
          rcases List.mem_cons.1 hm with rfl | hm'
          · rw [hint0] at hd2; cases hd2
          · exact hmin sh hm' d2 hd2
        · intro j hj sh2 hget2 d2 hd2
          cases j with
          | zero =>
            have hsh : sh0 = sh2 := by simpa using hget2
            rw [← hsh, hint0] at hd2; cases hd2
          | succ k =>
            exact hstrict k (by omega) sh2 (by simpa using hget2) d2 hd2
    · -- the head hits at distance dd
      rcases acc with _ | ⟨b, bd⟩
      · -- no accumulator yet: the step installs the head
        have hstep : hitStep ray none sh0 = some (sh0, dd) := by simp [hitStep, hint0]
        rw [hstep] at h
        rcases ih _ s d h with ⟨hacc, hmin⟩ | ⟨i, hget, hintS, haccB, hmin, hstrict⟩
        · obtain ⟨rfl, rfl⟩ : sh0 = s ∧ dd = d := by simpa using hacc
          right
          refine ⟨0, by simp, hint0, ?_, ?_, ?_⟩
          · intro b bd habs; cases habs
          · intro sh hm d2 hd2
            rcases List.mem_cons.1 hm with rfl | hm'
            · rw [hint0] at hd2
              exact le_of_eq (Option.some.inj hd2)
            · exact hmin sh hm' d2 hd2
          · intro j hj
            exact absurd hj (Nat.not_lt_zero j)
        · have hdd : d < dd := haccB sh0 dd rfl
          right
          refine ⟨i + 1, by simpa using hget, hintS, ?_, ?_, ?_⟩
          · intro b bd habs; cases habs
          · intro sh hm d2 hd2
            rcases List.mem_cons.1 hm with rfl | hm'
            · rw [hint0] at hd2
              have := Option.some.inj hd2
              linarith
            · exact hmin sh hm' d2 hd2
          · intro j hj sh2 hget2 d2 hd2
            cases j with
            | zero =>
              have hsh : sh0 = sh2 := by simpa using hget2
              rw [← hsh, hint0] at hd2
              have := Option.some.inj hd2
              linarith
            | succ k =>
              exact hstrict k (by omega) sh2 (by simpa using hget2) d2 hd2
      · by_cases hlt : dd < bd
        · -- the head strictly improves on the accumulator
          have hstep : hitStep ray (some (b, bd)) sh0 = some (sh0, dd) := by
            simp [hitStep, hint0, hlt]
          rw [hstep] at h
          rcases ih _ s d h with ⟨hacc, hmin⟩ | ⟨i, hget, hintS, haccB, hmin, hstrict⟩
          · obtain ⟨rfl, rfl⟩ : sh0 = s ∧ dd = d := by simpa using hacc
            right
            refine ⟨0, by simp, hint0, ?_, ?_, ?_⟩
            · intro b' bd' heq
              obtain ⟨rfl, rfl⟩ : b = b' ∧ bd = bd' := by simpa using heq
              exact hlt
            · intro sh hm d2 hd2
              rcases List.mem_cons.1 hm with rfl | hm'
              · rw [hint0] at hd2
                exact le_of_eq (Option.some.inj hd2)
              · exact hmin sh hm' d2 hd2
            · intro j hj
              exact absurd hj (Nat.not_lt_zero j)
          · have hdd : d < dd := haccB sh0 dd rfl
            right
            refine ⟨i + 1, by simpa using hget, hintS, ?_, ?_, ?_⟩
            · intro b' bd' heq
              obtain ⟨rfl, rfl⟩ : b = b' ∧ bd = bd' := by simpa using heq
              linarith
            · intro sh hm d2 hd2
              rcases List.mem_cons.1 hm with rfl | hm'
              · rw [hint0] at hd2
                have := Option.some.inj hd2
                linarith
              · exact hmin sh hm' d2 hd2
            · intro j hj sh2 hget2 d2 hd2
              cases j with
              | zero =>
                have hsh : sh0 = sh2 := by simpa using hget2
                rw [← hsh, hint0] at hd2
                have := Option.some.inj hd2
                linarith
              | succ k =>
                exact hstrict k (by omega) sh2 (by simpa using hget2) d2 hd2
        · -- the head does not strictly improve: the accumulator survives
          have hge : bd ≤ dd := not_lt.1 hlt
          have hstep : hitStep ray (some (b, bd)) sh0 = some (b, bd) := by
            simp [hitStep, hint0, hlt]
          rw [hstep] at h
          rcases ih _ s d h with ⟨hacc, hmin⟩ | ⟨i, hget, hintS, haccB, hmin, hstrict⟩
          · obtain ⟨rfl, rfl⟩ : b = s ∧ bd = d := by simpa using hacc
            left
            refine ⟨rfl, ?_⟩
            intro sh hm d2 hd2
            rcases List.mem_cons.1 hm with rfl | hm'
            · rw [hint0] at hd2
              have := Option.some.inj hd2
              linarith
            · exact hmin sh hm' d2 hd2
          · have hbd : d < bd := haccB b bd rfl
            right
            refine ⟨i + 1, by simpa using hget, hintS, ?_, ?_, ?_⟩
            · intro b' bd' heq
              obtain ⟨rfl, rfl⟩ : b = b' ∧ bd = bd' := by simpa using heq
              exact hbd
            · intro sh hm d2 hd2
              rcases List.mem_cons.1 hm with rfl | hm'
              · rw [hint0] at hd2
                have := Option.some.inj hd2
                linarith
              · exact hmin sh hm' d2 hd2
            · intro j hj sh2 hget2 d2 hd2
              cases j with
              | zero =>
                have hsh : sh0 = sh2 := by simpa using hget2
                rw [← hsh, hint0] at hd2
                have := Option.some.inj hd2
                linarith
              | succ k =>
                exact hstrict k (by omega) sh2 (by simpa using hget2) d2 hd2

theorem closestHit_mem (shapes : List Sphere) (ray : Ray) (s : Sphere) (d : ℝ)
    (h : closestHit shapes ray = some (s, d)) : s ∈ shapes := by
  rcases foldl_hitStep_spec ray shapes none s d h with ⟨habs, _⟩ | ⟨i, hget, _⟩
  · cases habs
  · exact List.get?_mem hget

/-- Unfolding of Sphere.intersects with the let bindings spelled out. -/
theorem intersects_eq (s : Sphere) (ray : Ray) :
    s.intersects ray =
      (if (Vec3.sub s.center ray.origin).dot ray.dir < 0 then none
       else
        if (Vec3.sub (Vec3.add ray.origin
              (Vec3.smul ray.dir ((Vec3.sub s.center ray.origin).dot ray.dir)))
              s.center).mag ≤ s.radius
        then some ((Vec3.sub s.center ray.origin).dot ray.dir -
          Real.sqrt (s.radius ^ 2 -
            ((Vec3.sub (Vec3.add ray.origin
              (Vec3.smul ray.dir ((Vec3.sub s.center ray.origin).dot ray.dir)))
              s.center).mag) ^ 2))
        else none) := rfl

/-- Claim C4: the nearest-hit search scans every surface linearly and
replaces the best candidate only under a strict comparison, so the
selected surface attains the minimal intersection distance and every
earlier surface in scene order intersects only at strictly larger
distance (first in scene order wins ties); and when no surface
intersects, raytrace returns black. -/
theorem raytrace_nearest_hit_first (ray : Ray) (scene : Scene) (m depth : ℕ) :
    ((∀ sh ∈ scene.shapes, sh.intersects ray = none) →
      closestHit scene.shapes ray = none ∧ raytrace ray scene m depth = Vec3.black) ∧
    (∀ s d, closestHit scene.shapes ray = some (s, d) →
      ∃ i : ℕ, scene.shapes.get? i = some s ∧
        s.intersects ray = some d ∧
        (∀ sh ∈ scene.shapes, ∀ d2, sh.intersects ray = some d2 → d ≤ d2) ∧
        (∀ j, j < i → ∀ sh2, scene.shapes.get? j = some sh2 →
          ∀ d2, sh2.intersects ray = some d2 → d < d2)) := by
  constructor
  · intro hall
    have hch : closestHit scene.shapes ray = none :=
      hitStep_all_none ray scene.shapes hall none
    refine ⟨hch, ?_⟩
    unfold raytrace
    cases hfd : m - depth with
    | zero => rfl
    | succ fuel => simp [raytraceGo, hch]
  · intro s d h
    rcases foldl_hitStep_spec ray scene.shapes none s d h with
      ⟨habs, _⟩ | ⟨i, hget, hintS, _, hmin, hstrict⟩
    · cases habs
    · exact ⟨i, hget, hintS, hmin, hstrict⟩

/-
  Concrete values for witnesses: a sphere straight ahead of the ray, and
  one behind it.
-/

noncomputable def demoMat : Material := ⟨⟨1, 1, 1⟩, 1, 1, 1, 1⟩

noncomputable def demoSphere : Sphere := ⟨⟨0, 0, 5⟩, 1, demoMat⟩

noncomputable def behindSphere : Sphere := ⟨⟨0, 0, -5⟩, 1, demoMat⟩

noncomputable def demoRay : Ray := ⟨⟨0, 0, 0⟩, ⟨0, 0, 1⟩⟩

theorem demoSphere_intersects : demoSphere.intersects demoRay = some 4 := by
  rw [intersects_eq]
  simp only [demoSphere, demoRay, demoMat, Vec3.sub, Vec3.add, Vec3.smul, Vec3.dot, Vec3.mag]
  norm_num [Real.sqrt_zero, Real.sqrt_one]

theorem behindSphere_intersects : behindSphere.intersects demoRay = none := by
  rw [intersects_eq]
  simp only [behindSphere, demoRay, demoMat, Vec3.sub, Vec3.add, Vec3.smul, Vec3.dot, Vec3.mag]
  norm_num

noncomputable def demoScene2 : Scene := ⟨⟨0, 0, 0⟩, [demoSphere, demoSphere], []⟩

noncomputable def behindScene : Scene := ⟨⟨0, 0, 0⟩, [behindSphere], []⟩

noncomputable def demoScene1 : Scene := ⟨⟨0, 0, 0⟩, [demoSphere], []⟩

theorem demo_closestHit2 : closestHit demoScene2.shapes demoRay = some (demoSphere, 4) := by
  simp [demoScene2, closestHit, hitStep, demoSphere_intersects]

theorem demo_closestHit1 : closestHit demoScene1.shapes demoRay = some (demoSphere, 4) := by
  simp [demoScene1, closestHit, hitStep, demoSphere_intersects]

/-- Witness for C4: a scene of two identical spheres dead ahead (a tie at
distance 4, resolved to an index whose earlier positions hit only
strictly farther), and a scene whose only sphere is behind the ray (no
intersection, black result). -/
theorem raytrace_nearest_hit_first_witness :
    (closestHit demoScene2.shapes demoRay = some (demoSphere, 4) ∧
      (∃ i : ℕ, demoScene2.shapes.get? i = some demoSphere ∧
        demoSphere.intersects demoRay = some 4 ∧
        (∀ sh ∈ demoScene2.shapes, ∀ d2, sh.intersects demoRay = some d2 → (4:ℝ) ≤ d2) ∧
        (∀ j, j < i → ∀ sh2, demoScene2.shapes.get? j = some sh2 →
          ∀ d2, sh2.intersects demoRay = some d2 → (4:ℝ) < d2))) ∧
    ((∀ sh ∈ behindScene.shapes, sh.intersects demoRay = none) ∧
      closestHit behindScene.shapes demoRay = none ∧
      raytrace demoRay behindScene 3 0 = Vec3.black) := by
  have hnone : ∀ sh ∈ behindScene.shapes, sh.intersects demoRay = none := by
    intro sh hm
    simp only [behindScene] at hm
    rcases List.mem_singleton.1 hm with rfl
    exact behindSphere_intersects
  have h1 := (raytrace_nearest_hit_first demoRay demoScene2 3 0).2 demoSphere 4 demo_closestHit2
  have h2 := (raytrace_nearest_hit_first demoRay behindScene 3 0).1 hnone
  exact ⟨⟨demo_closestHit2, h1⟩, hnone, h2.1, h2.2⟩

/-- Claim C5: at a hit with depth < max_bounces, raytrace equals the local
shaded color plus — added unweighted, with no reflective coefficient —
the recursive trace at depth + 1 of the bounce ray whose origin is
hit_pos + normal * 0.001 and whose direction is the mirror formula
dir - 2*(dir.dot normal)*normal. -/
theorem raytrace_bounce_unfold (ray : Ray) (scene : Scene) (m depth : ℕ)
    (sh : Sphere) (dist : ℝ)
    (hd : depth < m) (hhit : closestHit scene.shapes ray = some (sh, dist)) :
    raytrace ray scene m depth =
      Vec3.add
        (color_at scene ray sh (Vec3.add ray.origin (Vec3.smul ray.dir dist))
          (sh.get_normal (Vec3.add ray.origin (Vec3.smul ray.dir dist))))
        (raytrace
          (Ray.make
            (Vec3.add (Vec3.add ray.origin (Vec3.smul ray.dir dist))
              (Vec3.smul (sh.get_normal (Vec3.add ray.origin (Vec3.smul ray.dir dist))) 0.001))
            (reflect ray.dir (sh.get_normal (Vec3.add ray.origin (Vec3.smul ray.dir dist)))))
          scene m (depth + 1)) := by
  unfold raytrace
  have hfd : m - depth = (m - (depth + 1)) + 1 := by omega
  rw [hfd]
  simp [raytraceGo, hhit]

/-- Witness for C5 at the one-sphere scene, max_bounces 1, depth 0. -/
theorem raytrace_bounce_unfold_witness :
    (0 < 1 ∧ closestHit demoScene1.shapes demoRay = some (demoSphere, 4)) ∧
    raytrace demoRay demoScene1 1 0 =
      Vec3.add
        (color_at demoScene1 demoRay demoSphere
          (Vec3.add demoRay.origin (Vec3.smul demoRay.dir 4))
          (demoSphere.get_normal (Vec3.add demoRay.origin (Vec3.smul demoRay.dir 4))))
        (raytrace
          (Ray.make
            (Vec3.add (Vec3.add demoRay.origin (Vec3.smul demoRay.dir 4))
              (Vec3.smul (demoSphere.get_normal
                (Vec3.add demoRay.origin (Vec3.smul demoRay.dir 4))) 0.001))
            (reflect demoRay.dir
              (demoSphere.get_normal (Vec3.add demoRay.origin (Vec3.smul demoRay.dir 4)))))
          demoScene1 1 1) :=
  ⟨⟨by norm_num, demo_closestHit1⟩,
    raytrace_bounce_unfold demoRay demoScene1 1 0 demoSphere 4 (by norm_num) demo_closestHit1⟩

/-- Counterexample for C1 as stated: a unit-direction ray whose origin is
the center of a radius-1 sphere.  Sphere.intersects passes the t < 0 and
y <= radius guards (t = 0, y = 0) and returns the negative distance
t - x = -1. -/
theorem intersects_negative_distance_counterexample :
    ((Ray.mk (Vec3.mk 0 0 0) (Vec3.mk 0 0 1)).dir).mag = 1 ∧
    (0 : ℝ) < (Sphere.mk (Vec3.mk 0 0 0) 1 demoMat).radius ∧
    (Sphere.mk (Vec3.mk 0 0 0) 1 demoMat).intersects
      (Ray.mk (Vec3.mk 0 0 0) (Vec3.mk 0 0 1)) = some (-1) ∧
    (-1 : ℝ) < 0 := by
  refine ⟨?_, by norm_num, ?_, by norm_num⟩
  · simp only [Vec3.mag]
    norm_num [Real.sqrt_one]
  · rw [intersects_eq]
    simp only [Vec3.sub, Vec3.add, Vec3.smul, Vec3.dot, Vec3.mag]
    norm_num [Real.sqrt_zero, Real.sqrt_one]

/-- Claim C1 amended: for a unit-direction ray and a sphere of positive
radius whose center is at distance at least radius from the ray origin
(origin not strictly inside the sphere), Sphere.intersects returns either
none or a nonnegative distance.  When the origin is strictly inside, the
code can return a negative distance (see the counterexample). -/
theorem intersects_nonneg_of_origin_outside (s : Sphere) (ray : Ray)
    (hdir : ray.dir.mag = 1) (hr : 0 < s.radius)
    (hout : s.radius ≤ (Vec3.sub s.center ray.origin).mag) :
    s.intersects ray = none ∨ ∃ d, s.intersects ray = some d ∧ 0 ≤ d := by
  rw [intersects_eq]
  set ts := Vec3.sub s.center ray.origin with hts
  set t := ts.dot ray.dir with ht
  by_cases h1 : t < 0
  · left
    rw [if_pos h1]
  · push_neg at h1
    rw [if_neg (not_lt.2 h1)]
    set sl := Vec3.sub (Vec3.add ray.origin (Vec3.smul ray.dir t)) s.center with hsl
    set y := sl.mag with hy
    by_cases h2 : y ≤ s.radius
    · right
      rw [if_pos h2]
      refine ⟨_, rfl, ?_⟩
      have hdd : ray.dir.dot ray.dir = 1 := by
        rw [Vec3.dot_self_eq, hdir]
        norm_num
      have hsl_dot : sl.dot sl
          = t ^ 2 * (ray.dir.dot ray.dir) - 2 * t * (ts.dot ray.dir) + ts.dot ts := by
        simp only [hsl, hts, Vec3.dot, Vec3.sub, Vec3.add, Vec3.smul]
        ring
      have hy2 : y ^ 2 = ts.dot ts - t ^ 2 := by
        rw [hy, ← Vec3.dot_self_eq, hsl_dot, hdd, ← ht]
        ring
      have hts2 : s.radius ^ 2 ≤ ts.dot ts := by
        rw [Vec3.dot_self_eq]
        exact pow_le_pow_left₀ hr.le hout 2
      have hx2 : s.radius ^ 2 - y ^ 2 ≤ t ^ 2 := by
        rw [hy2]
        linarith
      have hsq : Real.sqrt (s.radius ^ 2 - y ^ 2) ≤ t := by
        calc Real.sqrt (s.radius ^ 2 - y ^ 2) ≤ Real.sqrt (t ^ 2) := Real.sqrt_le_sqrt hx2
        _ = t := Real.sqrt_sq h1
      linarith
    · left
      rw [if_neg h2]

/-- Witness for C1 amended: the demo sphere at (0,0,5), radius 1, viewed
from the origin along +z. -/
theorem intersects_nonneg_of_origin_outside_witness :
    ((demoRay.dir).mag = 1 ∧ (0:ℝ) < demoSphere.radius ∧
      demoSphere.radius ≤ (Vec3.sub demoSphere.center demoRay.origin).mag) ∧
    (demoSphere.intersects demoRay = none ∨
      ∃ d, demoSphere.intersects demoRay = some d ∧ 0 ≤ d) := by
  have hdir : (demoRay.dir).mag = 1 := by
    simp only [demoRay, Vec3.mag]
    norm_num [Real.sqrt_one]
  have hr : (0:ℝ) < demoSphere.radius := by
    norm_num [demoSphere]
  have hout : demoSphere.radius ≤ (Vec3.sub demoSphere.center demoRay.origin).mag := by
    simp only [demoSphere, demoRay, Vec3.sub, Vec3.mag]
    norm_num
  exact ⟨⟨hdir, hr, hout⟩, intersects_nonneg_of_origin_outside demoSphere demoRay hdir hr hout⟩

/-
  Componentwise order facts and nonnegativity of the shading terms.
-/

theorem vecLE_refl (v : Vec3) : vecLE v v :=
  ⟨le_refl _, le_refl _, le_refl _⟩

theorem vecLE_add (a b c d : Vec3) (h1 : vecLE a c) (h2 : vecLE b d) :
    vecLE (a.add b) (c.add d) :=
  ⟨add_le_add h1.1 h2.1, add_le_add h1.2.1 h2.2.1, add_le_add h1.2.2 h2.2.2⟩

theorem vecNonneg_black : vecNonneg Vec3.black :=
  ⟨le_refl 0, le_refl 0, le_refl 0⟩

theorem black_vecLE (v : Vec3) (h : vecNonneg v) : vecLE Vec3.black v := h

theorem vecNonneg_add (a b : Vec3) (ha : vecNonneg a) (hb : vecNonneg b) :
    vecNonneg (a.add b) :=
  ⟨add_nonneg ha.1 hb.1, add_nonneg ha.2.1 hb.2.1, add_nonneg ha.2.2 hb.2.2⟩

theorem vecNonneg_smul (v : Vec3) (s : ℝ) (hv : vecNonneg v) (hs : 0 ≤ s) :
    vecNonneg (v.smul s) :=
  ⟨mul_nonneg hv.1 hs, mul_nonneg hv.2.1 hs, mul_nonneg hv.2.2 hs⟩

theorem vsum_nonneg (vs : List Vec3) (h : ∀ v ∈ vs, vecNonneg v) :
    vecNonneg (vsum vs) := by
  induction vs with
  | nil => exact vecNonneg_black
  | cons v vs ih =>
    exact vecNonneg_add v (vsum vs) (h v (List.mem_cons_self v vs))
      (ih (fun w hw => h w (List.mem_cons_of_mem _ hw)))

theorem color_at_nonneg (scene : Scene) (ray : Ray) (sh : Sphere) (hp hn : Vec3)
    (hc : vecNonneg sh.material.color) (hamb : 0 ≤ sh.material.ambient)
    (hdif : 0 ≤ sh.material.diffuse) (hspe : 0 ≤ sh.material.specular)
    (hlights : ∀ l ∈ scene.lights, vecNonneg l.color) :
    vecNonneg (color_at scene ray sh hp hn) := by
  have heq := shade_foldl scene.cam sh.material hp hn scene.lights
    (Vec3.smul sh.material.color sh.material.ambient)
  unfold color_at
  rw [heq]
  apply vecNonneg_add
  · exact vecNonneg_smul _ _ hc hamb
  · apply vsum_nonneg
    intro v hv
    rcases List.mem_map.1 hv with ⟨l, hl, rfl⟩
    apply vecNonneg_add
    · exact vecNonneg_smul _ _ (vecNonneg_smul _ _ hc hdif) (le_max_left 0 _)
    · exact vecNonneg_smul _ _ (vecNonneg_smul _ _ (hlights l hl) hspe)
        (pow_nonneg (le_max_left 0 _) 30)

theorem raytraceGo_nonneg (scene : Scene) (hs : sceneNonneg scene) :
    ∀ (fuel : ℕ) (ray : Ray), vecNonneg (raytraceGo scene fuel ray) := by
  intro fuel
  induction fuel with
  | zero => intro _; exact vecNonneg_black
  | succ f ih =>
    intro ray
    rcases hch : closestHit scene.shapes ray with _ | ⟨sh, dist⟩
    · simp only [raytraceGo, hch]
      exact vecNonneg_black
    · have hmem := closestHit_mem scene.shapes ray sh dist hch
      have hmat := hs.1 sh hmem
      simp only [raytraceGo, hch]
      exact vecNonneg_add _ _
        (color_at_nonneg scene ray sh _ _ hmat.1 hmat.2.1 hmat.2.2.1 hmat.2.2.2 hs.2)
        (ih _)

theorem raytraceGo_mono (scene : Scene) (hs : sceneNonneg scene) :
    ∀ (f f' : ℕ), f ≤ f' → ∀ ray, vecLE (raytraceGo scene f ray) (raytraceGo scene f' ray) := by
  intro f
  induction f with
  | zero =>
    intro f' _ ray
    exact black_vecLE _ (raytraceGo_nonneg scene hs f' ray)
  | succ k ih =>
    intro f' hff ray
    obtain ⟨k', rfl⟩ : ∃ k', f' = k' + 1 := ⟨f' - 1, by omega⟩
    have hkk : k ≤ k' := by omega
    rcases hch : closestHit scene.shapes ray with _ | ⟨sh, dist⟩
    · simp only [raytraceGo, hch]
      exact vecLE_refl _
    · simp only [raytraceGo, hch]
      exact vecLE_add _ _ _ _ (vecLE_refl _) (ih k' hkk _)

/-- Claim C8: with nonnegative material colors, material coefficients and
light colors, raising max_bounces (m <= m2) never decreases any channel of
the traced color. -/
theorem raytrace_mono_max_bounces (ray : Ray) (scene : Scene) (m m2 : ℕ)
    (hs : sceneNonneg scene) (hm : m ≤ m2) :
    vecLE (raytrace ray scene m 0) (raytrace ray scene m2 0) := by
  unfold raytrace
  exact raytraceGo_mono scene hs (m - 0) (m2 - 0) (by omega) ray

/-- Witness for C8 on the one-sphere demo scene with bounce limits 0 and 1. -/
theorem raytrace_mono_max_bounces_witness :
    (sceneNonneg demoScene1 ∧ 0 ≤ 1) ∧
    vecLE (raytrace demoRay demoScene1 0 0) (raytrace demoRay demoScene1 1 0) := by
  have hsn : sceneNonneg demoScene1 := by
    constructor
    · intro sh hm
      simp only [demoScene1] at hm
      rcases List.mem_singleton.1 hm with rfl
      refine ⟨⟨?_, ?_, ?_⟩, ?_, ?_, ?_⟩ <;> norm_num [demoSphere, demoMat]
    · intro l hl
      simp [demoScene1] at hl
  exact ⟨⟨hsn, by omega⟩,
    raytrace_mono_max_bounces demoRay demoScene1 0 1 hsn (by omega)⟩

theorem raytraceF_eq_go (scene : Scene) :
    ∀ (steps : ℕ) (ray : Ray) (m d : ℕ), d ≤ m → m - d < steps →
      raytraceF scene steps ray m d = some (raytraceGo scene (m - d) ray) := by
  intro steps
  induction steps with
  | zero =>
    intro ray m d hdm hlt
    omega
  | succ st ih =>
    intro ray m d hdm hlt
    by_cases hdm_eq : d = m
    · subst hdm_eq
      rw [Nat.sub_self]
      simp [raytraceF, raytraceGo]
    · have hlt2 : d < m := lt_of_le_of_ne hdm hdm_eq
      have hmd : m - d = (m - (d + 1)) + 1 := by omega
      rcases hch : closestHit scene.shapes ray with _ | ⟨sh, dist⟩
      · rw [hmd]
        simp [raytraceF, raytraceGo, hch, hdm_eq]
      · rw [hmd]
        simp only [raytraceF, raytraceGo, hch, if_neg hdm_eq]
        rw [ih _ m (d + 1) (by omega) (by omega)]
        simp

/-- Claim C10: the Python raytrace recursion terminates from starting
depth 0 for every max_bounces: depth is the only recursion state, each
nested call raises it by exactly one, and a nesting budget of
max_bounces + 1 calls already suffices — the step-indexed model raytraceF
returns some value (never exhausting its budget, so the recursion depth
never exceeds max_bounces), and that value is raytrace's. -/
theorem raytrace_terminates_within_bounce_limit (ray : Ray) (scene : Scene) (m : ℕ) :
    raytraceF scene (m + 1) ray m 0 = some (raytrace ray scene m 0) := by
  have h := raytraceF_eq_go scene (m + 1) ray m 0 (Nat.zero_le m) (by omega)
  simpa [raytrace] using h
